import Mathlib

/-!
Shallow embedding of the label bookkeeping in NLPScholar's two HuggingFace
trainer classes (`src/trainers/HFTextClassificationTrainer.py` and
`src/trainers/HFTokenClassificationTrainer.py`), together with proofs of the
specification's claims about them.

The embedded pieces are:
* the per-example token/label alignment loop of
  `HFTokenClassificationTrainer.preprocess_function` (lines 66-85);
* the label-resolution loop of
  `HFTextClassificationTrainer.preprocess_function` (lines 53-63);
* the ignore-sentinel filtering in the token variant of `compute_metrics`
  (lines 20-31 of the token trainer);
* the preprocessing guard and the fixed-seed shuffle in both `train` methods.

Python dynamic values are modelled explicitly: a label cell is either an int
or a string (`PyLabel`); a failed dict or list access is an explicit
`PyError`; a write to stderr is counted.  The external tokenizer is modelled
only through its output (the `word_ids` list, one `Option Nat` per produced
sub-word token), which is how the source consumes it.
-/

namespace NLPScholar

/-- A Python value sitting in a label field: either already an int, or a
label name (string) to be resolved through the model's `label2id` dict. -/
inductive PyLabel where
  | int (n : Int)
  | str (s : String)
deriving DecidableEq, Repr

/-- Python exceptions the embedded code can raise: a `KeyError` from a dict
subscript and an `IndexError` from a list subscript. -/
inductive PyError where
  | keyError (k : String)
  | indexError
deriving DecidableEq, Repr

/-- The model collaborator's `label2id` dict, as an association list; a
subscript on it is the first matching key, `none` when absent. -/
def lookupId (m : List (String × Int)) (s : String) : Option Int :=
  match m with
  | [] => none
  | (k, v) :: rest => if k = s then some v else lookupId rest s

/-- Lines 73-81 of `HFTokenClassificationTrainer.preprocess_function`:
`word_label = label[word_idx]`, then if the value is not an int it is
replaced by `self.Model.label2id[word_label]` (which raises `KeyError` when
the name is unknown); an out-of-range `word_idx` raises `IndexError`. -/
def resolveWordLabel (m : List (String × Int)) (label : List PyLabel) (w : Nat) :
    Except PyError Int :=
  match label.get? w with
  | none => .error .indexError
  | some (.int n) => .ok n
  | some (.str s) =>
    match lookupId m s with
    | some v => .ok v
    | none => .error (.keyError s)

/-- Number of warning lines written to stderr by the resolution at lines
76-80: exactly one when the value is a string missing from `label2id`. -/
def resolveWarnCount (m : List (String × Int)) (label : List PyLabel) (w : Nat) : Nat :=
  match label.get? w with
  | some (.str s) => if lookupId m s = none then 1 else 0
  | _ => 0

/-- The `for word_idx in word_ids` loop of lines 70-85, with
`previous_word_idx` as the first list-typed argument.  Returns the number of
stderr warning lines written and either the produced `label_ids` list or the
first raised exception. -/
def alignAux (m : List (String × Int)) (label : List PyLabel) :
    Option Nat → List (Option Nat) → Nat × Except PyError (List Int)
  | _, [] => (0, .ok [])
  | _, none :: rest =>
    ((alignAux m label none rest).1,
     (alignAux m label none rest).2.map (fun tl => (-100 : Int) :: tl))
  | prev, some idx :: rest =>
    if some idx = prev then
      ((alignAux m label (some idx) rest).1,
       (alignAux m label (some idx) rest).2.map (fun tl => (-100 : Int) :: tl))
    else
      match resolveWordLabel m label idx with
      | .error e => (resolveWarnCount m label idx, .error e)
      | .ok v =>
        (resolveWarnCount m label idx + (alignAux m label (some idx) rest).1,
         (alignAux m label (some idx) rest).2.map (fun tl => v :: tl))

/-- One example's label alignment (lines 68-85): the loop starts with
`previous_word_idx = None`. -/
def alignLabels (m : List (String × Int)) (label : List PyLabel)
    (word_ids : List (Option Nat)) : Nat × Except PyError (List Int) :=
  alignAux m label none word_ids

/-- The `for i, label in enumerate(examples[tags])` loop of lines 66-86:
each example's tag list is aligned against the tokenizer's `word_ids` for
that example, in order; the first exception aborts the whole call. -/
def tokenBatchLabels (m : List (String × Int)) :
    List (List PyLabel) → List (List (Option Nat)) → Nat × Except PyError (List (List Int))
  | [], _ => (0, .ok [])
  | _ :: _, [] => (0, .error .indexError)
  | tag :: tags, wids :: rest =>
    match (alignLabels m tag wids).2 with
    | .error e => ((alignLabels m tag wids).1, .error e)
    | .ok out =>
      ((alignLabels m tag wids).1 + (tokenBatchLabels m tags rest).1,
       (tokenBatchLabels m tags rest).2.map (fun tl => out :: tl))

/-- The source word index of the token preceding position `i`, as the code's
`previous_word_idx` holds it when position `i` is examined: the loop's
initial value (`None` at top level) for `i = 0`, and the element at `i - 1`
afterwards. -/
def prevIdx (prev : Option Nat) (wids : List (Option Nat)) : Nat → Option Nat
  | 0 => prev
  | j + 1 => (wids.get? j).getD none

theorem prevIdx_cons (prev wi : Option Nat) (rest : List (Option Nat)) (i : Nat) :
    prevIdx prev (wi :: rest) (i + 1) = prevIdx wi rest i := by
  cases i <;> rfl

/-- Full behaviour of the alignment loop on a success run: the output has
one entry per token, special tokens and continuation pieces get `-100`, and
each first piece of a new word gets the successfully resolved label. -/
theorem alignAux_ok_spec (m : List (String × Int)) (label : List PyLabel) :
    ∀ (wids : List (Option Nat)) (prev : Option Nat) (out : List Int),
      (alignAux m label prev wids).2 = .ok out →
      out.length = wids.length ∧
      ∀ i,
        (wids.get? i = some none → out.get? i = some (-100)) ∧
        ∀ idx, wids.get? i = some (some idx) →
          (prevIdx prev wids i = some idx → out.get? i = some (-100)) ∧
          (prevIdx prev wids i ≠ some idx →
            ∃ v, resolveWordLabel m label idx = .ok v ∧ out.get? i = some v) := by
  intro wids
  induction wids with
  | nil =>
    intro prev out h
    simp only [alignAux] at h
    cases h
    exact ⟨rfl, fun i => ⟨by simp, fun idx hidx => by simp at hidx⟩⟩
  | cons wi rest ih =>
    intro prev out h
    cases wi with
    | none =>
      simp only [alignAux] at h
      cases hr : (alignAux m label none rest).2 with
      | error e => rw [hr] at h; cases h
      | ok tl =>
        rw [hr] at h
        cases h
        obtain ⟨hlen, hspec⟩ := ih none tl hr
        refine ⟨by simp [hlen], fun i => ?_⟩
        cases i with
        | zero =>
          refine ⟨fun _ => rfl, fun idx hidx => ?_⟩
          simp at hidx
        | succ j =>
          obtain ⟨hnone, hsome⟩ := hspec j
          refine ⟨hnone, fun idx hidx => ?_⟩
          rw [prevIdx_cons]
          exact hsome idx hidx
    | some widx =>
      simp only [alignAux] at h
      by_cases hp : some widx = prev
      · rw [if_pos hp] at h
        cases hr : (alignAux m label (some widx) rest).2 with
        | error e => rw [hr] at h; cases h
        | ok tl =>
          rw [hr] at h
          cases h
          obtain ⟨hlen, hspec⟩ := ih (some widx) tl hr
          refine ⟨by simp [hlen], fun i => ?_⟩
          cases i with
          | zero =>
            refine ⟨fun hc => by simp at hc, fun idx hidx => ?_⟩
            simp only [List.get?] at hidx
            cases hidx
            refine ⟨fun _ => rfl, fun hne => absurd ?_ hne⟩
            exact hp.symm
          | succ j =>
            obtain ⟨hnone, hsome⟩ := hspec j
            refine ⟨hnone, fun idx hidx => ?_⟩
            rw [prevIdx_cons]
            exact hsome idx hidx
      · rw [if_neg hp] at h
        cases hres : resolveWordLabel m label widx with
        | error e => rw [hres] at h; cases h
        | ok v =>
          rw [hres] at h
          simp only at h
          cases hr : (alignAux m label (some widx) rest).2 with
          | error e => rw [hr] at h; cases h
          | ok tl =>
            rw [hr] at h
            cases h
            obtain ⟨hlen, hspec⟩ := ih (some widx) tl hr
            refine ⟨by simp [hlen], fun i => ?_⟩
            cases i with
            | zero =>
              refine ⟨fun hc => by simp at hc, fun idx hidx => ?_⟩
              simp only [List.get?] at hidx
              cases hidx
              refine ⟨fun heq => absurd heq.symm hp, fun _ => ⟨v, hres, rfl⟩⟩
            | succ j =>
              obtain ⟨hnone, hsome⟩ := hspec j
              refine ⟨hnone, fun idx hidx => ?_⟩
              rw [prevIdx_cons]
              exact hsome idx hidx

end NLPScholar

namespace NLPScholar

/-- C1: in token-classification preprocessing, every token position whose
source word index exists and differs from the previous token's source word
index (the first sub-word piece of a new word) is assigned the resolved
integer id of that word's reference label: the word's label directly when it
is already an integer, and otherwise the value of the model's `label2id`
mapping at that name. -/
theorem claim_C1_first_piece_gets_resolved_label
    (m : List (String × Int)) (label : List PyLabel) (wids : List (Option Nat))
    (out : List Int) (i idx : Nat)
    (hok : (alignLabels m label wids).2 = .ok out)
    (hi : wids.get? i = some (some idx))
    (hprev : prevIdx none wids i ≠ some idx) :
    (∀ n, label.get? idx = some (.int n) → out.get? i = some n) ∧
    (∀ s, label.get? idx = some (.str s) → out.get? i = lookupId m s) := by
  obtain ⟨-, hspec⟩ := alignAux_ok_spec m label wids none out hok
  obtain ⟨-, hsome⟩ := hspec i
  obtain ⟨-, hnew⟩ := hsome idx hi
  obtain ⟨v, hres, hout⟩ := hnew hprev
  constructor
  · intro n hn
    simp only [resolveWordLabel, hn] at hres
    cases hres
    exact hout
  · intro s hs
    simp only [resolveWordLabel, hs] at hres
    cases hl : lookupId m s with
    | none => rw [hl] at hres; cases hres
    | some u =>
      rw [hl] at hres
      cases hres
      exact hout

/-- Witness for C1: on `label2id = [("B", 1)]`, word labels `[0, "B"]` and
word ids `[None, 0, 0, 1, None]`, position 1 (first piece of word 0, an int
label) gets 0 and position 3 (first piece of word 1, a string label) gets
`label2id["B"]`. -/
theorem claim_C1_witness :
    ([(-100 : Int), 0, -100, 1, -100] : List Int).get? 1 = some 0 ∧
    ([(-100 : Int), 0, -100, 1, -100] : List Int).get? 3 = lookupId [("B", 1)] "B" :=
  ⟨(claim_C1_first_piece_gets_resolved_label [("B", 1)] [.int 0, .str "B"]
      [none, some 0, some 0, some 1, none] [-100, 0, -100, 1, -100] 1 0
      rfl rfl (by decide)).1 0 rfl,
   (claim_C1_first_piece_gets_resolved_label [("B", 1)] [.int 0, .str "B"]
      [none, some 0, some 0, some 1, none] [-100, 0, -100, 1, -100] 3 1
      rfl rfl (by decide)).2 "B" rfl⟩

/-- C2: in token-classification preprocessing, every token position whose
source word index equals the immediately preceding token's source word index
(a continuation sub-word piece of the same word) is assigned the ignore
sentinel -100. -/
theorem claim_C2_continuation_piece_gets_ignore
    (m : List (String × Int)) (label : List PyLabel) (wids : List (Option Nat))
    (out : List Int) (i idx : Nat)
    (hok : (alignLabels m label wids).2 = .ok out)
    (hi : wids.get? i = some (some idx))
    (hnext : wids.get? (i + 1) = some (some idx)) :
    out.get? (i + 1) = some (-100) := by
  obtain ⟨-, hspec⟩ := alignAux_ok_spec m label wids none out hok
  obtain ⟨-, hsome⟩ := hspec (i + 1)
  obtain ⟨heq, -⟩ := hsome idx hnext
  apply heq
  show (wids.get? i).getD none = some idx
  rw [hi]
  rfl

/-- Witness for C2: on word ids `[None, 0, 0, 1, None]`, position 2 repeats
the word index of position 1 and is assigned -100. -/
theorem claim_C2_witness :
    ([(-100 : Int), 0, -100, 1, -100] : List Int).get? 2 = some (-100) :=
  claim_C2_continuation_piece_gets_ignore [("B", 1)] [.int 0, .str "B"]
    [none, some 0, some 0, some 1, none] [-100, 0, -100, 1, -100] 1 0
    rfl rfl rfl

/-- C3: in token-classification preprocessing, every token position with no
source word index (a special token) is assigned the ignore sentinel -100. -/
theorem claim_C3_special_token_gets_ignore
    (m : List (String × Int)) (label : List PyLabel) (wids : List (Option Nat))
    (out : List Int) (i : Nat)
    (hok : (alignLabels m label wids).2 = .ok out)
    (hi : wids.get? i = some none) :
    out.get? i = some (-100) := by
  obtain ⟨-, hspec⟩ := alignAux_ok_spec m label wids none out hok
  exact (hspec i).1 hi

/-- Witness for C3: on word ids `[None, 0, 0, 1, None]`, position 0 is a
special token and is assigned -100. -/
theorem claim_C3_witness :
    ([(-100 : Int), 0, -100, 1, -100] : List Int).get? 0 = some (-100) :=
  claim_C3_special_token_gets_ignore [("B", 1)] [.int 0, .str "B"]
    [none, some 0, some 0, some 1, none] [-100, 0, -100, 1, -100] 0
    rfl rfl

/-- C7: for every example in a token-classification batch, the produced
aligned label sequence has exactly one entry per sub-word token produced by
the tokenizer for that example (its length equals the length of that
example's `word_ids` list, not the source word count). -/
theorem claim_C7_one_label_per_subword_token
    (m : List (String × Int)) (tags : List (List PyLabel))
    (widsList : List (List (Option Nat))) (outs : List (List Int))
    (hok : (tokenBatchLabels m tags widsList).2 = .ok outs) :
    outs.length = tags.length ∧
    ∀ j outj widsj, outs.get? j = some outj → widsList.get? j = some widsj →
      outj.length = widsj.length := by
  induction tags generalizing widsList outs with
  | nil =>
    simp only [tokenBatchLabels] at hok
    cases hok
    exact ⟨rfl, fun j outj widsj hj => by simp at hj⟩
  | cons tag tags ih =>
    cases widsList with
    | nil =>
      simp only [tokenBatchLabels] at hok
      cases hok
    | cons wids rest =>
      simp only [tokenBatchLabels] at hok
      cases ha : (alignLabels m tag wids).2 with
      | error e => rw [ha] at hok; cases hok
      | ok out =>
        rw [ha] at hok
        simp only at hok
        cases hb : (tokenBatchLabels m tags rest).2 with
        | error e => rw [hb] at hok; cases hok
        | ok tl =>
          rw [hb] at hok
          cases hok
          obtain ⟨hlen, htail⟩ := ih rest tl hb
          obtain ⟨hhead, -⟩ := alignAux_ok_spec m tag wids none out ha
          refine ⟨by simp [hlen], fun j outj widsj hj hw => ?_⟩
          cases j with
          | zero =>
            simp only [List.get?] at hj hw
            cases hj; cases hw
            exact hhead
          | succ k =>
            exact htail k outj widsj hj hw

/-- Witness for C7: a one-example batch whose example has 2 source words and
5 sub-word tokens yields a label sequence of length 5. -/
theorem claim_C7_witness :
    ([(-100 : Int), 0, -100, 1, -100] : List Int).length =
      ([none, some 0, some 0, some 1, none] : List (Option Nat)).length :=
  (claim_C7_one_label_per_subword_token [("B", 1)] [[.int 0, .str "B"]]
      [[none, some 0, some 0, some 1, none]] [[-100, 0, -100, 1, -100]] rfl).2
    0 [-100, 0, -100, 1, -100] [none, some 0, some 0, some 1, none] rfl rfl

/-- C10: `previous_word_idx` is updated after every token, special tokens
included, where it becomes `None`; hence a token that immediately follows a
special token and has a source word index is treated as the first piece of a
new word and receives the word's resolved label — even when the same word
already received its label before the special token, so one word's label can
be assigned at more than one position (second conjunct: word 0's label 7
appears at positions 0 and 2). -/
theorem claim_C10_label_reassigned_after_special_token
    (m : List (String × Int)) (label : List PyLabel) (wids : List (Option Nat))
    (out : List Int) (i idx : Nat) (v : Int)
    (hok : (alignLabels m label wids).2 = .ok out)
    (hi : wids.get? i = some none)
    (hnext : wids.get? (i + 1) = some (some idx))
    (hres : resolveWordLabel m label idx = .ok v) :
    out.get? (i + 1) = some v ∧
    (alignLabels [] [PyLabel.int 7] [some 0, none, some 0]).2 =
      .ok [7, -100, 7] := by
  refine ⟨?_, rfl⟩
  obtain ⟨-, hspec⟩ := alignAux_ok_spec m label wids none out hok
  obtain ⟨-, hsome⟩ := hspec (i + 1)
  obtain ⟨-, hnew⟩ := hsome idx hnext
  have hne : prevIdx none wids (i + 1) ≠ some idx := by
    show (wids.get? i).getD none ≠ some idx
    rw [hi]
    simp
  obtain ⟨v', hres', hout⟩ := hnew hne
  rw [hres] at hres'
  cases hres'
  exact hout

/-- Witness for C10: with word labels `[7]` and word ids `[0, None, 0]`, the
token after the special token gets word 0's label again, so label 7 sits at
positions 0 and 2. -/
theorem claim_C10_witness :
    ([(7 : Int), -100, 7] : List Int).get? 2 = some 7 ∧
    (alignLabels [] [PyLabel.int 7] [some 0, none, some 0]).2 =
      .ok [7, -100, 7] :=
  claim_C10_label_reassigned_after_special_token [] [.int 7]
    [some 0, none, some 0] [7, -100, 7] 1 0 7 rfl rfl rfl rfl

/-- The `for label in examples['label']` loop of lines 54-61 of
`HFTextClassificationTrainer.preprocess_function`: an int label is appended
unchanged; a non-int label is looked up in `label2id` after a warning line
when the name is absent (the lookup then raises `KeyError`). -/
def textLabelsLoop (m : List (String × Int)) : List PyLabel → Nat × Except PyError (List Int)
  | [] => (0, .ok [])
  | .int n :: rest =>
    ((textLabelsLoop m rest).1,
     (textLabelsLoop m rest).2.map (fun tl => n :: tl))
  | .str s :: rest =>
    match lookupId m s with
    | some v =>
      ((textLabelsLoop m rest).1,
       (textLabelsLoop m rest).2.map (fun tl => v :: tl))
    | none => (1, .error (.keyError s))

/-- C8: in text-classification preprocessing, an int label passes through
unchanged, a non-int label is replaced by its `label2id` value, and the
output has exactly one integer label per example, in input order. -/
theorem claim_C8_text_label_passthrough_and_resolution
    (m : List (String × Int)) (labels : List PyLabel) (out : List Int)
    (hok : (textLabelsLoop m labels).2 = .ok out) :
    out.length = labels.length ∧
    ∀ i,
      (∀ n, labels.get? i = some (.int n) → out.get? i = some n) ∧
      (∀ s, labels.get? i = some (.str s) → out.get? i = lookupId m s) := by
  induction labels generalizing out with
  | nil =>
    simp only [textLabelsLoop] at hok
    cases hok
    exact ⟨rfl, fun i => ⟨fun n h => by simp at h, fun s h => by simp at h⟩⟩
  | cons lb rest ih =>
    cases lb with
    | int n =>
      simp only [textLabelsLoop] at hok
      cases hr : (textLabelsLoop m rest).2 with
      | error e => rw [hr] at hok; cases hok
      | ok tl =>
        rw [hr] at hok
        cases hok
        obtain ⟨hlen, hspec⟩ := ih tl hr
        refine ⟨by simp [hlen], fun i => ?_⟩
        cases i with
        | zero =>
          refine ⟨fun n' hn' => ?_, fun s hs => ?_⟩
          · simp only [List.get?] at hn'
            cases hn'
            rfl
          · simp at hs
        | succ j => exact hspec j
    | str s =>
      simp only [textLabelsLoop] at hok
      cases hl : lookupId m s with
      | none => rw [hl] at hok; cases hok
      | some v =>
        rw [hl] at hok
        simp only at hok
        cases hr : (textLabelsLoop m rest).2 with
        | error e => rw [hr] at hok; cases hok
        | ok tl =>
          rw [hr] at hok
          cases hok
          obtain ⟨hlen, hspec⟩ := ih tl hr
          refine ⟨by simp [hlen], fun i => ?_⟩
          cases i with
          | zero =>
            refine ⟨fun n' hn' => ?_, fun s' hs' => ?_⟩
            · simp at hn'
            · simp only [List.get?] at hs'
              cases hs'
              exact hl.symm
          | succ j => exact hspec j

/-- Witness for C8: on `label2id = [("A", 3)]` and labels `[5, "A"]`, the
output is `[5, 3]`: the int passes through, the name resolves, one label per
example in order. -/
theorem claim_C8_witness :
    ([(5 : Int), 3] : List Int).length =
      ([PyLabel.int 5, PyLabel.str "A"] : List PyLabel).length ∧
    ([(5 : Int), 3] : List Int).get? 0 = some 5 ∧
    ([(5 : Int), 3] : List Int).get? 1 = lookupId [("A", 3)] "A" := by
  have h := claim_C8_text_label_passthrough_and_resolution [("A", 3)]
    [.int 5, .str "A"] [5, 3] rfl
  exact ⟨h.1, (h.2 0).1 5 rfl, (h.2 1).2 "A" rfl⟩

/-- C5: in both preprocessing variants, a non-int label whose name is absent
from `label2id` produces exactly one warning line on stderr and the
subsequent subscript raises `KeyError` with that name; the error is
propagated, not recovered. -/
theorem claim_C5_unresolvable_label_warns_then_raises
    (m : List (String × Int)) (s : String) (pre : List Int)
    (hm : lookupId m s = none) :
    textLabelsLoop m (pre.map PyLabel.int ++ [PyLabel.str s]) =
        (1, .error (.keyError s)) ∧
    alignLabels m [PyLabel.str s] [some 0] = (1, .error (.keyError s)) := by
  constructor
  · induction pre with
    | nil => simp [textLabelsLoop, hm]
    | cons n rest ih =>
      rw [List.map_cons, List.cons_append]
      simp only [textLabelsLoop, ih]
      rfl
  · simp [alignLabels, alignAux, resolveWordLabel, resolveWarnCount, hm]

/-- Witness for C5: with an empty `label2id` and the unknown name "X", both
variants warn once and raise `KeyError "X"`. -/
theorem claim_C5_witness :
    textLabelsLoop [] (([5] : List Int).map PyLabel.int ++ [PyLabel.str "X"]) =
        (1, .error (.keyError "X")) ∧
    alignLabels [] [PyLabel.str "X"] [some 0] = (1, .error (.keyError "X")) :=
  claim_C5_unresolvable_label_warns_then_raises [] "X" [5] rfl

/-- The inner `for p, l in zip(prediction, label)` loop of the token
trainer's `compute_metrics` (lines 26-29): a position is kept exactly when
its reference label is not -100; kept predictions and labels are appended in
parallel, modelled as a list of pairs. -/
def filterRow : List Int → List Int → List (Int × Int)
  | p :: ps, l :: ls =>
    if l != -100 then (p, l) :: filterRow ps ls else filterRow ps ls
  | _, _ => []

/-- The outer `for prediction, label in zip(predictions, labels)` loop of
lines 24-29: flattening the batch into the parallel `true_predictions` /
`true_labels` lists, as a list of pairs. -/
def truePairs : List (List Int) → List (List Int) → List (Int × Int)
  | pr :: prs, la :: las => filterRow pr la ++ truePairs prs las
  | _, _ => []

/-- The `true_predictions` list handed to the metric collaborators as
`predictions=` (lines 30-43). -/
def true_predictions (ps ls : List (List Int)) : List Int :=
  (truePairs ps ls).map Prod.fst

/-- The `true_labels` list handed to the metric collaborators as
`references=` (lines 30-43). -/
def true_labels (ps ls : List (List Int)) : List Int :=
  (truePairs ps ls).map Prod.snd

theorem filterRow_eq_filter (ps ls : List Int) :
    filterRow ps ls = (ps.zip ls).filter (fun x => x.2 != -100) := by
  induction ps generalizing ls with
  | nil => cases ls <;> rfl
  | cons p ps ih =>
    cases ls with
    | nil => rfl
    | cons l ls =>
      simp only [filterRow, List.zip_cons_cons, List.filter_cons, ih]

/-- C4: the token-variant metric computation flattens batch-by-sequence
predictions and references into parallel lists keeping exactly the positions
whose reference label is not -100 (the zip-and-filter characterisation), the
kept references never contain -100, and on predictions `[1,2,3]` with
references `[1,-100,3]` only positions 0 and 2 survive. -/
theorem claim_C4_metric_inputs_filter_ignore_sentinel :
    (∀ ps ls : List (List Int),
      truePairs ps ls =
        (ps.zip ls).flatMap
          (fun row => (row.1.zip row.2).filter (fun x => x.2 != -100))) ∧
    (∀ ps ls : List (List Int),
      (true_labels ps ls).all (fun l => l != -100) = true) ∧
    true_predictions [[1, 2, 3]] [[1, -100, 3]] = [1, 3] ∧
    true_labels [[1, 2, 3]] [[1, -100, 3]] = [1, 3] := by
  have hmain : ∀ ps ls : List (List Int),
      truePairs ps ls =
        (ps.zip ls).flatMap
          (fun row => (row.1.zip row.2).filter (fun x => x.2 != -100)) := by
    intro ps
    induction ps with
    | nil => intro ls; rfl
    | cons pr prs ih =>
      intro ls
      cases ls with
      | nil => rfl
      | cons la las =>
        simp only [truePairs, List.zip_cons_cons, List.flatMap_cons,
          filterRow_eq_filter, ih]
  refine ⟨hmain, ?_, by rfl, by rfl⟩
  intro ps ls
  rw [List.all_eq_true]
  intro l hl
  rw [true_labels, List.mem_map] at hl
  obtain ⟨x, hx, rfl⟩ := hl
  rw [hmain, List.mem_flatMap] at hx
  obtain ⟨row, -, hxrow⟩ := hx
  exact (List.mem_filter.mp hxrow).2

/-- Abstract view of the external datasets collaborator, carrying the train
split's feature names and the number of tokenization passes run on it. -/
structure HFDataset where
  trainFeatures : List String
  mapCount : Nat
deriving DecidableEq, Repr

/-- Modelled behaviour of `preprocess_dataset` (the external collaborator's
`dataset.map(self.preprocess_function, batched=True)`): the mapped dataset's
features additionally carry the tokenizer output columns — in particular
'input_ids' — and one more tokenization pass has run. -/
def preprocess_dataset (d : HFDataset) : HFDataset :=
  { trainFeatures := d.trainFeatures ++ ["input_ids", "attention_mask", "labels"],
    mapCount := d.mapCount + 1 }

/-- The guard of both `train` methods (text trainer lines 83-85, token
trainer lines 104-106): preprocess only when 'input_ids' is not among the
train split's features. -/
def trainPreprocessStep (d : HFDataset) : HFDataset :=
  if "input_ids" ∉ d.trainFeatures then preprocess_dataset d else d

/-- C6: a `train()` call on a dataset whose train split already exposes
'input_ids' skips preprocessing entirely, and on any dataset a second
orchestration call never runs another tokenization pass. -/
theorem claim_C6_no_double_tokenization (d e : HFDataset)
    (h : "input_ids" ∈ d.trainFeatures) :
    trainPreprocessStep d = d ∧
    (trainPreprocessStep (trainPreprocessStep e)).mapCount =
      (trainPreprocessStep e).mapCount := by
  constructor
  · simp [trainPreprocessStep, h]
  · by_cases he : "input_ids" ∈ e.trainFeatures
    · simp [trainPreprocessStep, he]
    · have h2 : "input_ids" ∈ (preprocess_dataset e).trainFeatures := by
        simp [preprocess_dataset]
      simp [trainPreprocessStep, he, h2]

/-- Witness for C6: an already-tokenized dataset is returned untouched, and
a raw dataset is tokenized once, not twice, across two calls. -/
theorem claim_C6_witness :
    trainPreprocessStep ⟨["input_ids"], 1⟩ = ⟨["input_ids"], 1⟩ ∧
    (trainPreprocessStep (trainPreprocessStep ⟨[], 0⟩)).mapCount =
      (trainPreprocessStep ⟨[], 0⟩).mapCount :=
  claim_C6_no_double_tokenization ⟨["input_ids"], 1⟩ ⟨[], 0⟩ (by simp)

/-- The seed literal passed to `dataset.shuffle` at line 88 of the text
trainer's `train`. -/
def textShuffleSeed : Nat := 42

/-- The seed literal passed to `dataset.shuffle` at line 109 of the token
trainer's `train`. -/
def tokenShuffleSeed : Nat := 42

/-- The statement `self.dataset = self.dataset.shuffle(seed=42)` of the text
trainer, parameterised by the external collaborator's shuffle, a function of
the dataset and the seed only. -/
def textTrainShuffle (shuffle : HFDataset → Nat → HFDataset) (d : HFDataset) :
    HFDataset :=
  shuffle d textShuffleSeed

/-- The same statement in the token trainer's `train`. -/
def tokenTrainShuffle (shuffle : HFDataset → Nat → HFDataset) (d : HFDataset) :
    HFDataset :=
  shuffle d tokenShuffleSeed

/-- C9: both trainers shuffle with the fixed seed 42, so for any
deterministic shuffle collaborator two orchestration runs over the same
dataset produce the same example order, and both trainers invoke the
collaborator at exactly seed 42. -/
theorem claim_C9_fixed_seed_shuffle (shuffle : HFDataset → Nat → HFDataset)
    (d₁ d₂ : HFDataset) (h : d₁ = d₂) :
    textShuffleSeed = 42 ∧ tokenShuffleSeed = 42 ∧
    textTrainShuffle shuffle d₁ = textTrainShuffle shuffle d₂ ∧
    tokenTrainShuffle shuffle d₁ = tokenTrainShuffle shuffle d₂ ∧
    textTrainShuffle shuffle d₁ = shuffle d₁ 42 ∧
    tokenTrainShuffle shuffle d₁ = shuffle d₁ 42 := by
  subst h
  exact ⟨rfl, rfl, rfl, rfl, rfl, rfl⟩

/-- Witness for C9: instantiated at a concrete shuffle collaborator and a
concrete dataset. -/
theorem claim_C9_witness :
    textShuffleSeed = 42 ∧ tokenShuffleSeed = 42 ∧
    textTrainShuffle (fun d _ => d) ⟨[], 0⟩ = textTrainShuffle (fun d _ => d) ⟨[], 0⟩ ∧
    tokenTrainShuffle (fun d _ => d) ⟨[], 0⟩ = tokenTrainShuffle (fun d _ => d) ⟨[], 0⟩ ∧
    textTrainShuffle (fun d _ => d) ⟨[], 0⟩ = (fun d _ => d) ⟨[], 0⟩ 42 ∧
    tokenTrainShuffle (fun d _ => d) ⟨[], 0⟩ = (fun d _ => d) ⟨[], 0⟩ 42 :=
  claim_C9_fixed_seed_shuffle (fun d _ => d) ⟨[], 0⟩ ⟨[], 0⟩ rfl

end NLPScholar
